import Mathlib

/-!
Verification of the batch coprocessor dispatch core
(`store/copr/batch_coprocessor.go` and `store/tikv/batch_request_sender.go`).

The Go code is shallowly embedded: Go slices become `List`, Go maps become
association lists iterated in insertion order (one of the iteration orders
the Go language specification permits for `range` over a map), `float64`
load scores become `Rat` (the executions examined below never compare the
IEEE special values `Inf`/`NaN` against finite scores, which is the only
place where the two arithmetics part ways), and `uint64` store IDs become
`Nat` (the code only ever compares them for equality).  Effectful calls to
the external collaborators (topology cache, RPC transport, backoff engine)
are passed in as explicit oracle values, and the side effects a claim talks
about (cache notification, backoff cycles) are returned in trace fields.
-/

/-! ## Association lists modelling Go maps -/

section AssocListOps

variable {K : Type} {α : Type} [DecidableEq K]

/-- Lookup in a Go map: `v, ok := m[k]`. -/
def alGet : List (K × α) → K → Option α
  | [], _ => none
  | (k', v') :: t, k => if k' = k then some v' else alGet t k

/-- Insertion into a Go map: `m[k] = v` (overwrites in place, appends new
keys at the end of the iteration order). -/
def alSet : List (K × α) → K → α → List (K × α)
  | [], k, v => [(k, v)]
  | (k', v') :: t, k, v => if k' = k then (k, v) :: t else (k', v') :: alSet t k v

/-- In-place update of an existing entry, `m[k].field = ...`; a no-op when
the key is absent (the Go code only does this for keys it has inserted). -/
def alModify : List (K × α) → K → (α → α) → List (K × α)
  | [], _, _ => []
  | (k', v') :: t, k, f => if k' = k then (k, f v') :: t else (k', v') :: alModify t k f

/-- Deletion from a Go map: `delete(m, k)`. -/
def alErase : List (K × α) → K → List (K × α)
  | [], _ => []
  | (k', v') :: t, k => if k' = k then t else (k', v') :: alErase t k

end AssocListOps

/-! ## Exact embedding of the balancer's `float64` scores

The balancer computes load scores with `float64`.  All scores are built
from integer counters by division and addition, so they are exact
fractions `num / den`; we keep them unnormalised (kernel-reducible, unlike
`Rat` normalisation) with `den ≥ 0` by construction.  `den = 0` encodes
the IEEE specials produced by division by zero: `num > 0` is `+Inf` and
`num = 0` is `NaN` (`-Inf` is never constructed here: the only divisions
are of non-negative numerators by a denominator whose sign is
normalised away).  The comparison helpers follow IEEE-754: any comparison
against `NaN` is false, and `+Inf` compares greater than every finite
value and equal to itself. -/

structure GoFloat where
  num : Int
  den : Int
deriving DecidableEq, Repr

/-- Conversion `float64(n)` of a non-negative integer count. -/
def GoFloat.ofNat (n : Nat) : GoFloat := ⟨n, 1⟩

/-- `a + float64(m)` for a length/count `m`. -/
def gfAddNat (a : GoFloat) (m : Nat) : GoFloat := ⟨a.num + m * a.den, a.den⟩

/-- `float64(c) / b`: division of a non-negative count by a score whose
denominator is non-negative; the result's denominator is again
non-negative (`b.num`'s sign is moved into the numerator). -/
def gfDivNat (c : Nat) (b : GoFloat) : GoFloat :=
  if b.num < 0 then ⟨-(c * b.den), -b.num⟩ else ⟨c * b.den, b.num⟩

/-- `float64(n) / float64(d)` for the two `int` counters. -/
def gfOfIntDiv (n d : Int) : GoFloat := if d < 0 then ⟨-n, -d⟩ else ⟨n, d⟩

/-- IEEE `a == 0` (false for `NaN` and the infinities). -/
def gfEqZero (a : GoFloat) : Bool := decide (a.num = 0 ∧ a.den ≠ 0)

/-- IEEE `a < b` by cross-multiplication (sound because all denominators
are non-negative and `-Inf` never arises), false when either side is
`NaN`. -/
def gfLt (a b : GoFloat) : Bool :=
  if (a.den = 0 ∧ a.num = 0) ∨ (b.den = 0 ∧ b.num = 0) then false
  else decide (a.num * b.den < b.num * a.den)

/-- IEEE `a <= b`, false when either side is `NaN`. -/
def gfLe (a b : GoFloat) : Bool :=
  if (a.den = 0 ∧ a.num = 0) ∨ (b.den = 0 ∧ b.num = 0) then false
  else decide (a.num * b.den ≤ b.num * a.den)

/-! ## Data model (`RegionVerID`, `RegionInfo`, `batchCopTask`) -/

/-- Store identifier (`uint64` in the source; only equality is used). -/
abbrev StoreID := Nat

/-- `tikv.RegionVerID`: `(id, confVer, ver)`.  Its Go `String()` method
prints all three components, so the string key used by the balancer's
candidate maps is in bijection with this triple; we use the triple itself
as the map key. -/
structure RegionVerID where
  id : Nat
  confVer : Nat
  ver : Nat
deriving DecidableEq, Repr

instance : Inhabited RegionVerID := ⟨⟨0, 0, 0⟩⟩

/-- `tikv.RegionInfo` from `batch_request_sender.go`: region identity, the
region metadata, the key ranges of the region covered by this request, and
all stores currently hosting a valid replica.  `Meta` (a protobuf pointer)
and `Ranges` (an opaque range set) are never inspected by the dispatch
code, so they are embedded as opaque numeric tokens. -/
structure RegionInfo where
  region : RegionVerID
  meta : Nat
  ranges : Nat
  allStores : List StoreID
deriving DecidableEq, Repr

instance : Inhabited RegionInfo := ⟨⟨default, 0, 0, []⟩⟩

/-- `tikv.RPCContext`: resolved routing data for one region.  Only the
fields the dispatch core reads are kept. -/
structure RPCContext where
  addr : Nat
  store : StoreID
  meta : Nat
deriving DecidableEq, Repr

/-- `tikvrpc.CmdType`; the planner always uses `tikvrpc.CmdBatchCop`. -/
abbrev CmdType := Nat

/-- `tikvrpc.CmdBatchCop`. -/
def CmdBatchCop : CmdType := 0

/-- `copr.batchCopTask`: one batched request bound for one store.
`storeAddr` is embedded as a numeric address token. -/
structure batchCopTask where
  storeAddr : Nat
  cmdType : CmdType
  ctx : Option RPCContext
  regionInfos : List RegionInfo
deriving DecidableEq, Repr

instance : Inhabited batchCopTask := ⟨⟨0, 0, none, []⟩⟩

/-! ## The balancer, `balanceBatchCopTask` (batch_coprocessor.go:102-217) -/

/-- The store/candidate bookkeeping built by the first two phases of
`balanceBatchCopTask`: the store-task map, the per-store candidate maps
(keyed by `ri.Region.String()`), and the two running counters (Go `int`,
hence `Int`: the main loop later drives them below zero in some runs). -/
structure BalanceState where
  stm : List (StoreID × batchCopTask)
  cand : List (StoreID × List (RegionVerID × RegionInfo))
  totalCandidateStoreNum : Int
  totalCandidateCopTaskNum : Int
deriving DecidableEq, Repr

instance : Inhabited BalanceState := ⟨⟨[], [], 0, 0⟩⟩

/-- First loop of `balanceBatchCopTask` (lines 107-114): one fresh task per
draft task, holding exactly the draft's first (pinned) region, keyed by
that region's first store. -/
def initStoreTaskMap (originalTasks : List batchCopTask) : List (StoreID × batchCopTask) :=
  originalTasks.foldl
    (fun m task =>
      alSet m task.regionInfos.headI.allStores.headI
        { storeAddr := task.storeAddr, cmdType := task.cmdType, ctx := none,
          regionInfos := [task.regionInfos.headI] })
    []

/-- Lines 119-131: the number of "valid" stores of a region, i.e. stores of
`ri.AllStores` that are keys of the store-task map; a region with at most
one store counts as 1 without consulting the map. -/
def validStoreNum (stm : List (StoreID × batchCopTask)) (ri : RegionInfo) : Nat :=
  if ri.allStores.length ≤ 1 then 1
  else (ri.allStores.filter (fun s => (alGet stm s).isSome)).length

/-- `len(storeCandidateTaskMap[s])` with the Go convention that a missing
key reads as an empty map. -/
def candLen (cand : List (StoreID × List (RegionVerID × RegionInfo))) (s : StoreID) : Nat :=
  ((alGet cand s).getD []).length

/-- Lines 142-154: insert a candidate region into the candidate map of
every store of its `AllStores` list; `none` signals the duplicate-region
bailout (the same region key met an existing entry). -/
def insertCandidates (key : RegionVerID) (ri : RegionInfo) :
    List StoreID → List (StoreID × List (RegionVerID × RegionInfo)) →
    Option (List (StoreID × List (RegionVerID × RegionInfo)))
  | [], cand => some cand
  | s :: rest, cand =>
    match alGet cand s with
    | some inner =>
        if (alGet inner key).isSome then none
        else insertCandidates key ri rest (alSet cand s (alSet inner key ri))
    | none => insertCandidates key ri rest (alSet cand s [(key, ri)])

/-- Lines 117-156, body for one non-first region of a draft task: append it
to its own task when exactly one store is valid, otherwise file it as a
candidate with every store of its `AllStores` list. -/
def processRegion (taskStoreID : StoreID) (st : BalanceState) (ri : RegionInfo) :
    Option BalanceState :=
  let n := validStoreNum st.stm ri
  if n = 1 then
    some { st with
      stm := alModify st.stm taskStoreID
        (fun t => { t with regionInfos := t.regionInfos ++ [ri] }) }
  else
    match insertCandidates ri.region ri ri.allStores st.cand with
    | none => none
    | some cand' =>
        some { stm := st.stm, cand := cand',
               totalCandidateStoreNum := st.totalCandidateStoreNum + n,
               totalCandidateCopTaskNum := st.totalCandidateCopTaskNum + 1 }

/-- The inner `for index, ri := range task.regionInfos` loop (index 0 is
skipped, hence the tail). -/
def processRegions (taskStoreID : StoreID) :
    List RegionInfo → BalanceState → Option BalanceState
  | [], st => some st
  | ri :: rest, st =>
    match processRegion taskStoreID st ri with
    | none => none
    | some st' => processRegions taskStoreID rest st'

/-- The second `for _, task := range originalTasks` loop (lines 115-157);
`none` propagates the duplicate-region bailout. -/
def processTasks : List batchCopTask → BalanceState → Option BalanceState
  | [], st => some st
  | task :: rest, st =>
    match processRegions task.regionInfos.headI.allStores.headI task.regionInfos.tail st with
    | none => none
    | some st' => processTasks rest st'

/-- Phases 1-2 of `balanceBatchCopTask` glued together. -/
def balancePrepare (originalTasks : List batchCopTask) : Option BalanceState :=
  processTasks originalTasks ⟨initStoreTaskMap originalTasks, [], 0, 0⟩

/-- `len(storeTaskMap[s].regionInfos)` read with the Go zero default (the
Go code would dereference a nil pointer for an absent key; the executions
the theorems below speak about never reach that read with an absent key). -/
def regionsLen (stm : List (StoreID × batchCopTask)) (s : StoreID) : Nat :=
  ((alGet stm s).getD default).regionInfos.length

/-- `findNextStore` (lines 160-180): scan the store-task map in iteration
order for the store with the least projected load among stores that still
have candidates.  `none` plays the role of the `math.MaxUint64` sentinel. -/
def findNextStore (stm : List (StoreID × batchCopTask))
    (cand : List (StoreID × List (RegionVerID × RegionInfo))) (avg : GoFloat) :
    Option StoreID × GoFloat :=
  stm.foldl
    (fun acc p =>
      match acc.1 with
      | none =>
          if 0 < candLen cand p.1 then
            (some p.1, gfAddNat (gfDivNat (candLen cand p.1) avg) p.2.regionInfos.length)
          else acc
      | some _ =>
          let num := gfDivNat (candLen cand p.1) avg
          if gfEqZero num then acc
          else
            let num := gfAddNat num p.2.regionInfos.length
            if gfLt num acc.2 then (some p.1, num) else acc)
    (none, ⟨0, 1⟩)

/-- Lines 192-197: delete the popped region's key from the candidate map of
every store of its `AllStores` list, decrementing the counter once per
store whose candidate map exists. -/
def removeFromStores (key : RegionVerID) :
    List StoreID → List (StoreID × List (RegionVerID × RegionInfo)) → Int →
    List (StoreID × List (RegionVerID × RegionInfo)) × Int
  | [], cand, tcs => (cand, tcs)
  | s :: rest, cand, tcs =>
    match alGet cand s with
    | some inner => removeFromStores key rest (alSet cand s (alErase inner key)) (tcs - 1)
    | none => removeFromStores key rest cand tcs

/-- Mutable state of the main balancing loop (lines 185-210). -/
structure LoopState where
  stm : List (StoreID × batchCopTask)
  cand : List (StoreID × List (RegionVerID × RegionInfo))
  tcs : Int
  tct : Int
  store : Option StoreID
  ptn : GoFloat
  avg : GoFloat
deriving DecidableEq, Repr

/-- One iteration of the main loop body: refresh the current store if its
candidates ran out, pop the first candidate of the current store (the
`range`+`break` idiom), append it to that store's task, delete it
everywhere it is a candidate, then (while candidates remain) recompute the
projected loads and greedily move to a cheaper store hosting the popped
region. -/
def balanceLoopStep (ls : LoopState) : LoopState :=
  let sp := if candLen ls.cand (ls.store.getD 0) = 0 ∨ ls.store = none
    then findNextStore ls.stm ls.cand ls.avg else (ls.store, ls.ptn)
  match sp.1 with
  | none => { ls with store := sp.1, ptn := sp.2 }
  | some s =>
    match ((alGet ls.cand s).getD []).head? with
    | none => { ls with store := sp.1, ptn := sp.2 }
    | some (key, ri) =>
      let stm := alModify ls.stm s
        (fun t => { t with regionInfos := t.regionInfos ++ [ri] })
      let tct := ls.tct - 1
      let cr := removeFromStores key ri.allStores ls.cand ls.tcs
      if 0 < tct then
        let ptn := gfAddNat (gfDivNat (candLen cr.1 s) ls.avg) (regionsLen stm s)
        let avg := gfOfIntDiv cr.2 tct
        let sp' := ri.allStores.foldl
          (fun (acc : StoreID × GoFloat) id =>
            if id ≠ acc.1 ∧ 0 < candLen cr.1 id ∧
                gfLe (gfAddNat (gfDivNat (candLen cr.1 id) avg) (regionsLen stm id)) acc.2
            then (id, gfAddNat (gfDivNat (candLen cr.1 id) avg) (regionsLen stm id))
            else acc)
          (s, ptn)
        { stm := stm, cand := cr.1, tcs := cr.2, tct := tct,
          store := some sp'.1, ptn := sp'.2, avg := avg }
      else
        { stm := stm, cand := cr.1, tcs := cr.2, tct := tct,
          store := some s, ptn := sp.2, avg := ls.avg }

/-- `for totalCandidateStoreNum > 0` (line 185), fuelled: every iteration
of the Go loop that makes progress pops one candidate region, so
`totalCandidateCopTaskNum + 1` iterations suffice for every terminating Go
execution; on the (diverging) remainder the embedding returns the state
reached, which the invariants below still hold of. -/
def balanceLoop : Nat → LoopState → LoopState
  | 0, ls => ls
  | fuel + 1, ls => if 0 < ls.tcs then balanceLoop fuel (balanceLoopStep ls) else ls

/-- `balanceBatchCopTask` (lines 102-217): rebalance regions that have more
than one valid store across the participating stores.  Returns the drafts
unchanged on the duplicate-region bailout and when there are no candidate
store slots at all. -/
def balanceBatchCopTask (originalTasks : List batchCopTask) : List batchCopTask :=
  match balancePrepare originalTasks with
  | none => originalTasks
  | some st =>
    let avg := gfOfIntDiv st.totalCandidateStoreNum st.totalCandidateCopTaskNum
    if st.totalCandidateStoreNum = 0 then originalTasks
    else
      let sp := findNextStore st.stm st.cand avg
      let ls := balanceLoop (st.totalCandidateCopTaskNum.toNat + 1)
        { stm := st.stm, cand := st.cand, tcs := st.totalCandidateStoreNum,
          tct := st.totalCandidateCopTaskNum, store := sp.1, ptn := sp.2, avg := avg }
      ls.stm.map (·.2)

/-- All regions carried by a task list, in order. -/
def allRegions (tasks : List batchCopTask) : List RegionInfo :=
  tasks.flatMap (·.regionInfos)

/-! ## Errors and backoff categories

Go errors are embedded as root causes: `errors.Trace` wraps an error but
`errors.Cause` sees through the wrapper, and every comparison in the
dispatch code goes through `errors.Cause`, so the wrappers are dropped. -/

/-- The error values the dispatch core distinguishes.  `grpcCanceled`
stands for any transport error whose gRPC status code is
`codes.Canceled`; `otherStr` carries the message of an `errors.New` /
`errors.Errorf` error; `genericErr` is any other error (an I/O failure,
a cache failure, ...). -/
inductive GoError where
  | ctxCanceled
  | grpcCanceled
  | errTiDBShuttingDown
  | errTiFlashServerTimeout
  | errQueryInterrupted
  | ioEOF
  | otherStr (s : String)
  | genericErr (n : Nat)
deriving DecidableEq, Repr

/-- The backoff categories (`tikv.BoRegionMiss`, `tikv.BoTiKVRPC`,
`tikv.BoTiFlashRPC`) the dispatch core uses. -/
inductive BackoffKind where
  | BoRegionMiss
  | BoTiKVRPC
  | BoTiFlashRPC
deriving DecidableEq, Repr

/-- `errors.Cause(err) == context.Canceled || status.Code(errors.Cause(err))
== codes.Canceled` (batch_request_sender.go:78). -/
def isCanceledCause : GoError → Bool
  | .ctxCanceled => true
  | .grpcCanceled => true
  | _ => false

/-! ## The request sender, `SendReqToAddr` (batch_request_sender.go:48-88)

External effects are embedded as oracle inputs: `setCtxErr` is the result
of `tikvrpc.SetContext`, `sendOutcome` the result of
`client.SendRequest` (a response payload or a transport error),
`shuttingDown` the process-wide `ShuttingDown` flag, and
`tiflashBackoff` the outcome of the one `bo.Backoff(BoTiFlashRPC, ...)`
call (`none` means the backoff slept and succeeded).  The observable
effects are returned in `notifiedCache` (did the sender call
`RegionCache.OnSendFailForBatchRegions`?) and `backoffs` (the backoff
cycles applied, in order). -/

/-- The result tuple `(resp, retry, cancel, err)` of `SendReqToAddr`,
extended with the effect trace.  The `cancel` handle has no observable
content in this embedding and is omitted. -/
structure SendResult where
  resp : Option Nat
  retry : Bool
  err : Option GoError
  notifiedCache : Bool
  backoffs : List BackoffKind
deriving DecidableEq, Repr

/-- `onSendFailForBatchRegions` (batch_request_sender.go:76-88), returning
the error outcome together with the effect trace. -/
def onSendFailForBatchRegions (shuttingDown : Bool) (tiflashBackoff : Option GoError)
    (err : GoError) : Option GoError × Bool × List BackoffKind :=
  if isCanceledCause err then (some err, false, [])
  else if shuttingDown then (some .errTiDBShuttingDown, false, [])
  else
    match tiflashBackoff with
    | some e => (some e, true, [.BoTiFlashRPC])
    | none => (none, true, [.BoTiFlashRPC])

/-- `SendReqToAddr` (batch_request_sender.go:48-74). -/
def SendReqToAddr (setCtxErr : Option GoError) (sendOutcome : Except GoError Nat)
    (shuttingDown : Bool) (tiflashBackoff : Option GoError) : SendResult :=
  match setCtxErr with
  | some e => ⟨none, false, some e, false, []⟩
  | none =>
    match sendOutcome with
    | .ok r => ⟨some r, false, none, false, []⟩
    | .error err =>
      match onSendFailForBatchRegions shuttingDown tiflashBackoff err with
      | (some e, notified, bos) => ⟨none, false, some e, notified, bos⟩
      | (none, notified, bos) => ⟨none, true, none, notified, bos⟩

/-! ## Responses, the stream consumer and `Next`
(batch_coprocessor.go:47-94, 357-381, 490-561) -/

/-- `coprocessor.BatchResponse`: the protobuf sub-response; only the
fields the dispatch core reads are kept (`GetOtherError()` and the
payload `Data`). -/
structure BatchResponsePB where
  otherError : String
  data : Nat
deriving DecidableEq, Repr

/-- `copr.batchCopResponse` restricted to the fields that flow through
the result channel and `Next`: the protobuf payload (a nil pointer in Go
becomes `none`) and the error field. -/
structure batchCopResponse where
  pbResp : Option BatchResponsePB
  err : Option GoError
deriving DecidableEq, Repr

/-- `batchCopResponse.GetData` (lines 59-61) dereferences `pbResp`
unconditionally; `none` models the nil-pointer panic. -/
def GetData (rs : batchCopResponse) : Option Nat :=
  rs.pbResp.map (·.data)

/-- `handleBatchCopResponse` (lines 523-552): surface a protocol-level
`other error` as a task error, otherwise package the sub-response (with
runtime statistics, which carry no claim-relevant content) for the result
channel. -/
def handleBatchCopResponse (response : BatchResponsePB) : Except GoError batchCopResponse :=
  if response.otherError ≠ "" then
    .error (.otherStr response.otherError)
  else
    .ok { pbResp := some response, err := none }

/-- What one run of the stream consumer did: the sub-responses it put on
the result channel, the backoff cycles it applied, and its return value
(`none` is Go's `nil` success). -/
structure StreamRunResult where
  enqueued : List batchCopResponse
  backoffs : List BackoffKind
  result : Option GoError
deriving DecidableEq, Repr

/-- The `for` loop of `handleStreamedBatchCopResponse` (lines 497-520),
driven by the pending sub-response `resp`, the further sub-responses the
stream will deliver (`oks`), and the receive error that ends the stream
(`terminal`; a well-behaved stream ends with `io.EOF`).  `tikvBackoff` is
the outcome of the one `bo.Backoff(BoTiKVRPC, ...)` call, should it be
reached. -/
def streamLoop (tikvBackoff : Option GoError) (terminal : GoError) :
    BatchResponsePB → List BatchResponsePB → List batchCopResponse → StreamRunResult
  | resp, oks, acc =>
    match handleBatchCopResponse resp with
    | .error e => ⟨acc, [], some e⟩
    | .ok enq =>
      match oks with
      | next :: rest => streamLoop tikvBackoff terminal next rest (acc ++ [enq])
      | [] =>
        if terminal = .ioEOF then ⟨acc ++ [enq], [], none⟩
        else
          match tikvBackoff with
          | some _ => ⟨acc ++ [enq], [.BoTiKVRPC], some terminal⟩
          | none => ⟨acc ++ [enq], [.BoTiKVRPC], some .errTiFlashServerTimeout⟩

/-- `handleStreamedBatchCopResponse` (lines 490-521).  `first` is
`response.BatchResponse`, the sub-response already attached to the
streaming handle (`none` when the stream returned `io.EOF` on open). -/
def handleStreamedBatchCopResponse (tikvBackoff : Option GoError) (first : Option BatchResponsePB)
    (oks : List BatchResponsePB) (terminal : GoError) : StreamRunResult :=
  match first with
  | none => ⟨[], [], none⟩
  | some resp => streamLoop tikvBackoff terminal resp oks []

/-- The error-path response of `handleTask` (lines 424-427): a response
with only the error field set. -/
def taskErrorResponse (e : GoError) : batchCopResponse :=
  { pbResp := none, err := some e }

/-- The killed-query response synthesised by `recvFromRespCh`
(line 392). -/
def queryInterruptedResponse : batchCopResponse :=
  { pbResp := none, err := some .errQueryInterrupted }

/-- The responses that can reach the reader of `Next`: exactly the values
sent to `respChan` by `handleBatchCopResponse` (line 549) and by the
error path of `handleTask` (line 426), plus the response
`recvFromRespCh` synthesises when the query is killed (line 392) —
these are the only three construction sites in the source. -/
inductive ProducedResponse : batchCopResponse → Prop
  | stream (pb : BatchResponsePB) (r : batchCopResponse)
      (h : handleBatchCopResponse pb = .ok r) : ProducedResponse r
  | taskError (e : GoError) : ProducedResponse (taskErrorResponse e)
  | killed : ProducedResponse queryInterruptedResponse

/-- The filtering `Next` applies to a received response (lines 372-380):
an error-bearing response is returned as a Go error, then a visibility
check may fail, and only then is the response exposed as a result
subset. -/
def NextFilter (visibilityErr : Option GoError) (resp : batchCopResponse) :
    Except GoError batchCopResponse :=
  match resp.err with
  | some e => .error e
  | none =>
    match visibilityErr with
    | some e => .error e
    | none => .ok resp

/-! ## The planner, `buildBatchCopTasks` (batch_coprocessor.go:219-293)

The topology cache and the backoffer are embedded as an oracle indexed by
the pass number (the cache's state changes between passes, so each pass
may see different answers).  `split k ranges` is the pass's
`SplitKeyRanges` outcome, `rpcCtx k region` its
`GetTiFlashRPCContext` outcome (`.ok none` is the nil context of an
evicted region), `allStores k region` its `GetAllValidTiFlashStores`
answer, and `regionMissBackoff k` the outcome of the pass's
`bo.Backoff(BoRegionMiss, ...)` call, should it be reached. -/

/-- `copr.copTask` restricted to what the batch planner reads: the region
and its sub-ranges (opaque). -/
structure copTask where
  region : RegionVerID
  ranges : Nat
deriving DecidableEq, Repr

/-- The external collaborators of one `buildBatchCopTasks` run. -/
structure PlanOracle where
  split : Nat → Nat → Except GoError (List copTask)
  rpcCtx : Nat → RegionVerID → Except GoError (Option RPCContext)
  allStores : Nat → RegionVerID → List StoreID
  regionMissBackoff : Nat → Option GoError

/-- The region-resolution loop of one pass (lines 243-269): build the
per-address store-task map, recording every region for which
`GetTiFlashRPCContext` was invoked; a cache error aborts the pass
immediately, a nil context sets `needRetry` and moves on. -/
def resolvePass (o : PlanOracle) (k : Nat) :
    List copTask → List (Nat × batchCopTask) → Bool → List RegionVerID →
    Except (GoError × List RegionVerID) (List (Nat × batchCopTask) × Bool × List RegionVerID)
  | [], stm, needRetry, resolved => .ok (stm, needRetry, resolved)
  | t :: rest, stm, needRetry, resolved =>
    match o.rpcCtx k t.region with
    | .error e => .error (e, resolved ++ [t.region])
    | .ok none => resolvePass o k rest stm true (resolved ++ [t.region])
    | .ok (some rpc) =>
      let stores := o.allStores k t.region
      let ri : RegionInfo := ⟨t.region, rpc.meta, t.ranges, stores⟩
      let stm' :=
        if (alGet stm rpc.addr).isSome then
          alModify stm rpc.addr (fun bt => { bt with regionInfos := bt.regionInfos ++ [ri] })
        else
          alSet stm rpc.addr ⟨rpc.addr, CmdBatchCop, some rpc, [ri]⟩
      resolvePass o k rest stm' needRetry (resolved ++ [t.region])

/-- What one pass of the planner loop did and decided. -/
inductive PassOutcome where
  | fatal (e : GoError)
  | retryNext
  | done (tasks : List batchCopTask)
deriving DecidableEq, Repr

/-- The trace of one pass: the regions it resolved through the cache and
the backoff cycles it applied. -/
structure PassTrace where
  resolvedRegions : List RegionVerID
  backoffs : List BackoffKind
deriving DecidableEq, Repr

/-- One iteration of the planner's `for` loop (lines 223-292): split the
(original) ranges, resolve every region, then either back off and retry,
return a fatal error, or balance and return the grouped tasks. -/
def buildPass (o : PlanOracle) (ranges : Nat) (k : Nat) : PassTrace × PassOutcome :=
  match o.split k ranges with
  | .error e => (⟨[], []⟩, .fatal e)
  | .ok cts =>
    match resolvePass o k cts [] false [] with
    | .error (e, resolved) => (⟨resolved, []⟩, .fatal e)
    | .ok (stm, needRetry, resolved) =>
      if needRetry then
        match o.regionMissBackoff k with
        | some e => (⟨resolved, [.BoRegionMiss]⟩, .fatal e)
        | none => (⟨resolved, [.BoRegionMiss]⟩, .retryNext)
      else (⟨resolved, []⟩, .done (balanceBatchCopTask (stm.map (·.2))))

/-- The planner loop from pass `k` on, fuelled (the Go loop runs until a
pass stops retrying; in reality the backoffer's budget bounds the number
of passes).  `none` means the fuel ran out while the loop was still
retrying.  Every pass is re-run on the same original `ranges` argument. -/
def buildBatchCopTasksAux (o : PlanOracle) (ranges : Nat) :
    Nat → Nat → Option (List PassTrace × Except GoError (List batchCopTask))
  | _, 0 => none
  | k, fuel + 1 =>
    match buildPass o ranges k with
    | (tr, .fatal e) => some ([tr], .error e)
    | (tr, .done ts) => some ([tr], .ok ts)
    | (tr, .retryNext) =>
      match buildBatchCopTasksAux o ranges (k + 1) fuel with
      | none => none
      | some (trs, r) => some (tr :: trs, r)

/-- `buildBatchCopTasks` (lines 219-293) with its effect trace. -/
def buildBatchCopTasks (o : PlanOracle) (ranges : Nat) (fuel : Nat) :
    Option (List PassTrace × Except GoError (List batchCopTask)) :=
  buildBatchCopTasksAux o ranges 0 fuel

/-! ## Iterator construction, `sendBatch` (batch_coprocessor.go:295-319) -/

/-- The request fields `sendBatch` consults. -/
structure kvRequest where
  keepOrder : Bool
  desc : Bool
  payload : Nat
deriving DecidableEq, Repr

/-- The response object `sendBatch` hands back: either the error-only
response or a live iterator over the planned tasks. -/
inductive kvResponse where
  | copErrorResponse (e : GoError)
  | iterator (tasks : List batchCopTask)
deriving DecidableEq, Repr

/-- `sendBatch` (lines 295-319).  `plan` stands for the
`buildBatchCopTasks` call; the returned flag records whether the planner
was invoked (and hence whether workers could have been spawned). -/
def sendBatch (req : kvRequest) (plan : Except GoError (List batchCopTask)) :
    kvResponse × Bool :=
  if req.keepOrder || req.desc then
    (.copErrorResponse (.otherStr "batch coprocessor cannot prove keep order or desc property"),
     false)
  else
    match plan with
    | .error e => (.copErrorResponse e, true)
    | .ok tasks => (.iterator tasks, true)

/-- Modelled from the spec: `copErrorResponse` lives in
`store/copr/coprocessor.go`, which is not part of the provided sources;
per the specification (§4.E, scenario (f)) its first `next()` call
"returns an error result immediately", i.e. yields the stored error. -/
def copErrorResponseNext (e : GoError) : Except GoError (Option batchCopResponse) :=
  .error e

/-- The first `next()` outcome of a `kvResponse`: an iterator would pull
from its result channel (abstracted here as its task list being live);
the error response yields its error at once. -/
def firstNext (r : kvResponse) : Except GoError (Option (List batchCopTask)) :=
  match r with
  | .copErrorResponse e => .error e
  | .iterator tasks => .ok (some tasks)

/-! ## Iterator close, the `closed` flag and `finishCh`
(batch_coprocessor.go:339-344, 396-407, 410-418)

The `finishCh` channel may be closed from `Close` and from the
`ctx.Done()` arm of `recvFromRespCh`; both guard the `close` with
`atomic.CompareAndSwapUint32(&b.closed, 0, 1)`.  The embedding is the
sequential state machine over these two operations; `finishCloses`
counts how many times `close(b.finishCh)` has executed (a Go program
panics the moment this count would reach 2). -/

/-- The claim-relevant iterator state. -/
structure IterState where
  closed : Nat
  finishCloses : Nat
deriving DecidableEq, Repr

/-- The iterator as constructed by `sendBatch` (line 305, `closed`
implicitly zero). -/
def initIterState : IterState := ⟨0, 0⟩

/-- `atomic.CompareAndSwapUint32(&b.closed, 0, 1)` followed, on success,
by `close(b.finishCh)` — the shared prologue of `Close` (lines 412-414)
and of the `ctx.Done()` arm (lines 401-403). -/
def casAndCloseFinish (s : IterState) : IterState :=
  if s.closed = 0 then { closed := 1, finishCloses := s.finishCloses + 1 } else s

/-- The two operations that can close `finishCh`. -/
inductive IterOp where
  | closeCall
  | ctxDone
deriving DecidableEq, Repr

/-- One operation step; `Close` (lines 411-418) returns `nil`
unconditionally, recorded alongside the new state (the `ctx.Done()` arm
returns no error either). -/
def iterStep (s : IterState) : IterOp → IterState × Option GoError
  | .closeCall => (casAndCloseFinish s, none)
  | .ctxDone => (casAndCloseFinish s, none)

/-- Run a sequence of close/cancel operations, collecting the returned
errors. -/
def runIterOps : IterState → List IterOp → IterState × List (Option GoError)
  | s, [] => (s, [])
  | s, op :: rest =>
    let (s', e) := iterStep s op
    let (s'', es) := runIterOps s' rest
    (s'', e :: es)

/-! ## Statement-level definitions for the claims -/

/-- The valid stores of a region, in the words of the spec: "the stores of
`r.AllStores` that are keys of the store-task map". -/
def validStores (stm : List (StoreID × batchCopTask)) (ri : RegionInfo) : List StoreID :=
  ri.allStores.filter (fun s => (alGet stm s).isSome)

/-- The `(store, region_key)` pairs one candidate region contributes to
the candidate maps: one pair per store of its `AllStores` list, in
order. -/
def regionPairs (ri : RegionInfo) : List (StoreID × RegionVerID) :=
  ri.allStores.map (fun s => (s, ri.region))

/-- The candidate-map insertion pairs contributed by a list of non-first
regions: those whose valid-store count is not 1 each contribute their
`regionPairs`. -/
def pairsOfRegions (stm0 : List (StoreID × batchCopTask)) (rs : List RegionInfo) :
    List (StoreID × RegionVerID) :=
  (rs.filter (fun ri => validStoreNum stm0 ri != 1)).flatMap regionPairs

/-- The `(store, region_key)` pairs the balancer's candidate phase inserts
into candidate maps, in insertion order: for every non-pinned region whose
valid-store count is not 1, one pair per store of its `AllStores` list
(valid-store counts are taken against the phase-1 store-task map, whose
key set phase 2 never changes). -/
def insertionPairs (stm0 : List (StoreID × batchCopTask)) (tasks : List batchCopTask) :
    List (StoreID × RegionVerID) :=
  tasks.flatMap (fun task => pairsOfRegions stm0 task.regionInfos.tail)

/-- Membership of a `(store, region_key)` pair in the candidate maps. -/
def candMem (cand : List (StoreID × List (RegionVerID × RegionInfo)))
    (p : StoreID × RegionVerID) : Bool :=
  match alGet cand p.1 with
  | some inner => (alGet inner p.2).isSome
  | none => false

/-! ### Concrete inputs used by counterexamples and witnesses

`dropInput` is a plausible planner output: two draft tasks pinned to
stores 1 and 2, where store 1's task also carries region 10 (replicated
on stores 1, 2 and on stores 3, 4 — replica hosts that received no task
of their own) and store 2's task also carries region 20 (replicated on
stores 2, 1).  Balancing pops region 10 first (this is one of the
iteration orders Go's map `range` permits), which decrements the
candidate-slot counter by 4 (once per `AllStores` entry, including the
invalid stores 3, 4) although region 10 only contributed 2 valid slots —
so the loop exits with region 20 still unassigned. -/

/-- Pinned region of the first draft. -/
def dropPinA : RegionInfo := ⟨⟨1, 0, 0⟩, 0, 0, [1]⟩

/-- Pinned region of the second draft. -/
def dropPinB : RegionInfo := ⟨⟨2, 0, 0⟩, 0, 0, [2]⟩

/-- Candidate region replicated on the two participating stores and on
two bystander stores. -/
def dropRegA : RegionInfo := ⟨⟨10, 0, 0⟩, 0, 0, [1, 2, 3, 4]⟩

/-- Candidate region replicated on the two participating stores; this is
the region the balancer loses. -/
def dropRegB : RegionInfo := ⟨⟨20, 0, 0⟩, 0, 0, [2, 1]⟩

/-- The draft list on which `balanceBatchCopTask` drops `dropRegB`. -/
def dropInput : List batchCopTask :=
  [⟨101, CmdBatchCop, none, [dropPinA, dropRegA]⟩,
   ⟨102, CmdBatchCop, none, [dropPinB, dropRegB]⟩]

/-- A non-pinned region whose only valid store (store 2) is not the
primary store (store 1) of the draft task carrying it. -/
def svRegion : RegionInfo := ⟨⟨10, 0, 0⟩, 0, 0, [2]⟩

/-- Draft input for the single-valid-store counterexample: the draft of
store 1 carries `svRegion`, whose single valid store is store 2. -/
def svInput : List batchCopTask :=
  [⟨101, CmdBatchCop, none, [⟨⟨1, 0, 0⟩, 0, 0, [1]⟩, svRegion]⟩,
   ⟨102, CmdBatchCop, none, [⟨⟨2, 0, 0⟩, 0, 0, [2]⟩]⟩]

/-- A small balanced input for the pin-invariant witness: two drafts, the
first also carrying two regions valid on both stores. -/
def pinInput : List batchCopTask :=
  [⟨101, CmdBatchCop, none,
    [⟨⟨1, 0, 0⟩, 0, 0, [1]⟩, ⟨⟨10, 0, 0⟩, 0, 0, [1, 2]⟩, ⟨⟨11, 0, 0⟩, 0, 0, [1, 2]⟩]⟩,
   ⟨102, CmdBatchCop, none, [⟨⟨2, 0, 0⟩, 0, 0, [2]⟩]⟩]

/-- Input for the duplicate-bailout witness: the same region (id 10)
appears as a candidate in both drafts, so its key is inserted twice into
the candidate maps of stores 1 and 2. -/
def dupInput : List batchCopTask :=
  [⟨101, CmdBatchCop, none, [⟨⟨1, 0, 0⟩, 0, 0, [1]⟩, ⟨⟨10, 0, 0⟩, 0, 0, [1, 2]⟩]⟩,
   ⟨102, CmdBatchCop, none, [⟨⟨2, 0, 0⟩, 0, 0, [2]⟩, ⟨⟨10, 0, 0⟩, 0, 0, [1, 2]⟩]⟩]

/-- Oracle for the planner witness: one region, evicted from the cache on
pass 0 (nil `RPCContext`) and resolved on every later pass; region-miss
backoff succeeds. -/
def planOracleW : PlanOracle where
  split := fun _ _ => .ok [⟨⟨1, 0, 0⟩, 0⟩]
  rpcCtx := fun k _ => if k = 0 then .ok none else .ok (some ⟨7, 1, 0⟩)
  allStores := fun _ _ => [1]
  regionMissBackoff := fun _ => none

/-! # Theorems -/

/-! ## C9: close idempotence -/

/-- The single-shot invariant of the closed flag: starting from any state,
running close/cancel operations closes `finishCh` at most once more (and
not at all when the flag is already set), and every `Close` call returns
`nil`. -/
theorem runIterOps_inv (ops : List IterOp) : ∀ s : IterState,
    (runIterOps s ops).1.finishCloses ≤
      s.finishCloses + (if s.closed = 0 then 1 else 0) ∧
    ∀ e ∈ (runIterOps s ops).2, e = none := by
  induction ops with
  | nil => intro s; constructor
           · simp only [runIterOps]; omega
           · simp [runIterOps]
  | cons op rest ih =>
    intro s
    have hstep : iterStep s op = (casAndCloseFinish s, none) := by cases op <;> rfl
    constructor
    · have h := (ih (casAndCloseFinish s)).1
      simp only [runIterOps, hstep]
      by_cases hc : s.closed = 0
      · simp only [casAndCloseFinish, hc, if_pos] at h ⊢
        simp at h
        omega
      · simp only [casAndCloseFinish, hc, if_neg, if_false] at h ⊢
        simp [hc] at h ⊢
        omega
    · intro e he
      simp only [runIterOps, hstep] at he
      simp at he
      rcases he with he | he
      · exact he
      · exact (ih (casAndCloseFinish s)).2 e he

/-- Claim C9: over any sequence of `Close` calls and context-done events
starting from a fresh iterator, the finish channel is closed at most once
(the compare-and-swap on `closed` succeeds at most once), every `Close`
call returns `nil`, and in particular two consecutive `Close` calls close
the channel exactly once and both return `nil` — so the double close never
panics. -/
theorem Close_twice_never_double_closes (ops : List IterOp) :
    (runIterOps initIterState ops).1.finishCloses ≤ 1 ∧
    (∀ e ∈ (runIterOps initIterState ops).2, e = none) ∧
    runIterOps initIterState [.closeCall, .closeCall] = (⟨1, 1⟩, [none, none]) := by
  refine ⟨?_, (runIterOps_inv ops initIterState).2, by decide⟩
  have h := (runIterOps_inv ops initIterState).1
  simpa [initIterState] using h

/-! ## C5: failure classification of the request sender -/

/-- Claim C5: when the transport-level send fails, the sender returns the
error as fatal (`retry = false`) if its root cause is a cancelled context
or a gRPC `Cancelled` status; otherwise, if the process-wide
`ShuttingDown` flag is set, it returns the fatal shutting-down error with
`retry = false`; otherwise it notifies the region cache of the failure,
applies exactly one `BoTiFlashRPC` backoff cycle, and — when that backoff
succeeds — returns `retry = true` with nil response and nil error. -/
theorem SendReqToAddr_failure_classification (e : GoError) (sd : Bool) (bo : Option GoError) :
    (isCanceledCause e = true →
      SendReqToAddr none (.error e) sd bo = ⟨none, false, some e, false, []⟩) ∧
    (isCanceledCause e = false → sd = true →
      SendReqToAddr none (.error e) sd bo =
        ⟨none, false, some .errTiDBShuttingDown, false, []⟩) ∧
    (isCanceledCause e = false → sd = false →
      (SendReqToAddr none (.error e) sd bo).notifiedCache = true ∧
      (SendReqToAddr none (.error e) sd bo).backoffs = [.BoTiFlashRPC] ∧
      (bo = none →
        SendReqToAddr none (.error e) sd bo = ⟨none, true, none, true, [.BoTiFlashRPC]⟩)) := by
  refine ⟨fun h => ?_, fun h hsd => ?_, fun h hsd => ?_⟩
  · simp [SendReqToAddr, onSendFailForBatchRegions, h]
  · simp [SendReqToAddr, onSendFailForBatchRegions, h, hsd]
  · refine ⟨?_, ?_, fun hbo => ?_⟩ <;>
      cases bo <;> simp_all [SendReqToAddr, onSendFailForBatchRegions]

/-- Witness for C5: a generic transport error with the flag clear and a
successful backoff yields the retry result. -/
theorem SendReqToAddr_failure_classification_witness :
    SendReqToAddr none (.error (.genericErr 0)) false none =
      ⟨none, true, none, true, [.BoTiFlashRPC]⟩ :=
  ((SendReqToAddr_failure_classification (.genericErr 0) false none).2.2 rfl rfl).2.2 rfl

/-! ## C8: order-preserving requests are rejected at construction -/

/-- Claim C8: a request with `KeepOrder` or `Desc` set makes `sendBatch`
return the error response without invoking the planner (hence without
spawning workers), and the first `next()` on that response yields the
error immediately. -/
theorem sendBatch_rejects_keep_order (req : kvRequest)
    (plan : Except GoError (List batchCopTask))
    (h : req.keepOrder = true ∨ req.desc = true) :
    sendBatch req plan =
      (.copErrorResponse
        (.otherStr "batch coprocessor cannot prove keep order or desc property"), false) ∧
    firstNext (sendBatch req plan).1 =
      .error (.otherStr "batch coprocessor cannot prove keep order or desc property") ∧
    copErrorResponseNext
        (.otherStr "batch coprocessor cannot prove keep order or desc property") =
      .error (.otherStr "batch coprocessor cannot prove keep order or desc property") := by
  have hb : (req.keepOrder || req.desc) = true := by
    rcases h with h | h <;> simp [h]
  refine ⟨by simp [sendBatch, hb], by simp [sendBatch, hb, firstNext], rfl⟩

/-- Witness for C8 at a concrete keep-order request. -/
theorem sendBatch_rejects_keep_order_witness :
    sendBatch ⟨true, false, 0⟩ (.ok []) =
      (.copErrorResponse
        (.otherStr "batch coprocessor cannot prove keep order or desc property"), false) ∧
    firstNext (sendBatch ⟨true, false, 0⟩ (.ok [])).1 =
      .error (.otherStr "batch coprocessor cannot prove keep order or desc property") ∧
    copErrorResponseNext
        (.otherStr "batch coprocessor cannot prove keep order or desc property") =
      .error (.otherStr "batch coprocessor cannot prove keep order or desc property") :=
  sendBatch_rejects_keep_order ⟨true, false, 0⟩ (.ok []) (Or.inl rfl)

/-! ## C10: results exposed by `Next` always carry a payload -/

/-- Claim C10: every response that can reach `Next`'s reader and passes
its error filter carries a non-nil protobuf payload, so `GetData` never
dereferences nil; error-only responses (task failure, killed query) are
returned as Go errors, never as result subsets. -/
theorem Next_never_exposes_nil_payload (v : Option GoError) (r r' : batchCopResponse)
    (hp : ProducedResponse r) (h : NextFilter v r = .ok r') :
    r'.pbResp ≠ none ∧ (GetData r').isSome := by
  cases hp with
  | stream pb rr hok =>
    unfold handleBatchCopResponse at hok
    split at hok
    · cases hok
    · cases hok
      unfold NextFilter at h
      cases v with
      | some e => simp at h
      | none =>
        simp at h
        subst h
        exact ⟨by simp, by simp [GetData]⟩
  | taskError e => simp [NextFilter, taskErrorResponse] at h
  | killed => simp [NextFilter, queryInterruptedResponse] at h

/-- Witness for C10: a clean streamed sub-response passes the filter with
its payload intact. -/
theorem Next_never_exposes_nil_payload_witness :
    ({ pbResp := some ⟨"", 5⟩, err := none } : batchCopResponse).pbResp ≠ none ∧
    (GetData { pbResp := some ⟨"", 5⟩, err := none }).isSome :=
  Next_never_exposes_nil_payload none { pbResp := some ⟨"", 5⟩, err := none }
    { pbResp := some ⟨"", 5⟩, err := none }
    (ProducedResponse.stream ⟨"", 5⟩ _ (by simp [handleBatchCopResponse])) rfl

/-! ## C6: mid-stream receive errors -/

/-- A sub-response without a protocol-level error is packaged with its
payload. -/
theorem handleBatchCopResponse_clean (r : BatchResponsePB) (h : r.otherError = "") :
    handleBatchCopResponse r = .ok { pbResp := some r, err := none } := by
  simp [handleBatchCopResponse, h]

/-- Full characterisation of the stream-consumer loop on a stream whose
sub-responses all lack protocol-level errors: every sub-response is
enqueued; then end-of-stream returns `nil` with no backoff, while any
other receive error triggers exactly one `BoTiKVRPC` backoff and returns
the original error if the backoff failed, the server-timeout error if it
succeeded. -/
theorem streamLoop_clean (bo : Option GoError) (term : GoError) :
    ∀ (oks : List BatchResponsePB) (resp : BatchResponsePB) (acc : List batchCopResponse),
    resp.otherError = "" → (∀ r ∈ oks, r.otherError = "") →
    streamLoop bo term resp oks acc =
      ⟨acc ++ (resp :: oks).map (fun r => { pbResp := some r, err := none }),
       if term = .ioEOF then [] else [.BoTiKVRPC],
       if term = .ioEOF then none
       else some (if bo.isSome then term else .errTiFlashServerTimeout)⟩ := by
  intro oks
  induction oks with
  | nil =>
    intro resp acc h0 _
    unfold streamLoop
    simp only [handleBatchCopResponse, h0]
    by_cases ht : term = .ioEOF
    · simp [ht]
    · cases bo <;> simp [ht]
  | cons nxt rest ih =>
    intro resp acc h0 hr
    unfold streamLoop
    rw [handleBatchCopResponse_clean resp h0]
    show streamLoop bo term nxt rest (acc ++ [{ pbResp := some resp, err := none }]) = _
    refine (ih nxt (acc ++ [{ pbResp := some resp, err := none }])
      (hr nxt (by simp)) (fun r hm => hr r (by simp [hm]))).trans ?_
    simp

/-- Claim C6: for a stream that delivers clean sub-responses and then a
mid-stream receive error, the consumer applies exactly one `BoTiKVRPC`
backoff cycle when the error is not `io.EOF` — returning the original
receive error if that backoff itself fails and the server-timeout error
otherwise — and returns `nil` (success) with no backoff on `io.EOF`. -/
theorem stream_error_single_backoff (bo : Option GoError) (term : GoError)
    (r0 : BatchResponsePB) (oks : List BatchResponsePB)
    (h0 : r0.otherError = "") (hr : ∀ r ∈ oks, r.otherError = "") :
    ((handleStreamedBatchCopResponse bo (some r0) oks term).backoffs =
       if term = .ioEOF then [] else [.BoTiKVRPC]) ∧
    ((handleStreamedBatchCopResponse bo (some r0) oks term).result =
       if term = .ioEOF then none
       else some (if bo.isSome then term else .errTiFlashServerTimeout)) := by
  have hd : handleStreamedBatchCopResponse bo (some r0) oks term =
      streamLoop bo term r0 oks [] := rfl
  rw [hd, streamLoop_clean bo term oks r0 [] h0 hr]
  exact ⟨rfl, rfl⟩

/-- Witness for C6: one clean sub-response followed by a generic receive
error yields one `BoTiKVRPC` backoff and (successful backoff) the
server-timeout error. -/
theorem stream_error_single_backoff_witness :
    ((handleStreamedBatchCopResponse none (some ⟨"", 1⟩) [] (.genericErr 3)).backoffs =
       if (GoError.genericErr 3) = .ioEOF then [] else [.BoTiKVRPC]) ∧
    ((handleStreamedBatchCopResponse none (some ⟨"", 1⟩) [] (.genericErr 3)).result =
       if (GoError.genericErr 3) = .ioEOF then none
       else some (if (none : Option GoError).isSome then .genericErr 3
                  else .errTiFlashServerTimeout)) :=
  stream_error_single_backoff none (.genericErr 3) ⟨"", 1⟩ [] rfl (by simp)

/-! ## C1: balancer conservation (violated by the code) -/

/-- Claim C1 (evaluation at the failing input): the draft list
`dropInput` carries region 20 once, but the balanced output does not
carry it at all — the balancer drops a region, violating multiset
conservation. -/
theorem balance_drops_region :
    (allRegions dropInput).count dropRegB = 1 ∧
    (allRegions (balanceBatchCopTask dropInput)).count dropRegB = 0 := by decide

/-! ## C3: the pin invariant

The machinery: a predicate on tasks that is closed under appending a
region to the region list holds of every value of the store-task map
throughout all three phases of the balancer, because after phase 1 the
map's values are only ever changed by appending regions. -/

/-- Membership in `alSet m k v`: the new value or an old entry. -/
theorem alSet_mem {K α : Type} [DecidableEq K] {m : List (K × α)} {k : K} {v : α} {p : K × α}
    (hp : p ∈ alSet m k v) : p.2 = v ∨ p ∈ m := by
  induction m with
  | nil =>
    simp only [alSet, List.mem_singleton] at hp
    subst hp; exact Or.inl rfl
  | cons q t ih =>
    obtain ⟨k', v'⟩ := q
    simp only [alSet] at hp
    by_cases h : k' = k
    · simp only [h, if_pos] at hp
      rcases List.mem_cons.mp hp with h1 | h1
      · subst h1; exact Or.inl rfl
      · exact Or.inr (List.mem_cons_of_mem _ h1)
    · simp only [h, if_neg, if_false] at hp
      rcases List.mem_cons.mp hp with h1 | h1
      · subst h1; exact Or.inr (List.mem_cons_self _ _)
      · rcases ih h1 with h2 | h2
        · exact Or.inl h2
        · exact Or.inr (List.mem_cons_of_mem _ h2)

/-- Membership in `alModify m k f`: an old entry, or `f` of an old
entry's value. -/
theorem alModify_mem {K α : Type} [DecidableEq K] {m : List (K × α)} {k : K} {f : α → α}
    {p : K × α} (hp : p ∈ alModify m k f) : p ∈ m ∨ ∃ q ∈ m, p.2 = f q.2 := by
  induction m with
  | nil => simp [alModify] at hp
  | cons q t ih =>
    obtain ⟨k', v'⟩ := q
    simp only [alModify] at hp
    by_cases h : k' = k
    · simp only [h, if_pos] at hp
      rcases List.mem_cons.mp hp with h1 | h1
      · subst h1; exact Or.inr ⟨(k', v'), List.mem_cons_self _ _, rfl⟩
      · exact Or.inl (List.mem_cons_of_mem _ h1)
    · simp only [h, if_neg, if_false] at hp
      rcases List.mem_cons.mp hp with h1 | h1
      · subst h1; exact Or.inl (List.mem_cons_self _ _)
      · rcases ih h1 with h2 | h2
        · exact Or.inl (List.mem_cons_of_mem _ h2)
        · obtain ⟨r, hr, he⟩ := h2
          exact Or.inr ⟨r, List.mem_cons_of_mem _ hr, he⟩

/-- A value predicate closed under `f` survives `alModify`. -/
theorem alModify_pred {K α : Type} [DecidableEq K] (Q : α → Prop) {m : List (K × α)} {k : K}
    {f : α → α} (hf : ∀ v, Q v → Q (f v)) (hm : ∀ p ∈ m, Q p.2) :
    ∀ p ∈ alModify m k f, Q p.2 := by
  intro p hp
  rcases alModify_mem hp with h | ⟨q, hq, he⟩
  · exact hm p h
  · rw [he]; exact hf _ (hm q hq)

/-- One iteration of the main balancing loop either leaves the store-task
map untouched or appends one region to one existing entry. -/
theorem balanceLoopStep_stm_shape (ls : LoopState) :
    (balanceLoopStep ls).stm = ls.stm ∨
    ∃ s ri, (balanceLoopStep ls).stm =
      alModify ls.stm s (fun t => { t with regionInfos := t.regionInfos ++ [ri] }) := by
  simp only [balanceLoopStep]
  split
  · exact Or.inl rfl
  · split
    · exact Or.inl rfl
    · split
      · exact Or.inr ⟨_, _, rfl⟩
      · exact Or.inr ⟨_, _, rfl⟩

/-- Append-closed value predicates survive the main balancing loop. -/
theorem balanceLoop_stm_pred (Q : batchCopTask → Prop)
    (hQ : ∀ (t : batchCopTask) (ri : RegionInfo),
      Q t → Q { t with regionInfos := t.regionInfos ++ [ri] }) :
    ∀ (fuel : Nat) (ls : LoopState), (∀ p ∈ ls.stm, Q p.2) →
      ∀ p ∈ (balanceLoop fuel ls).stm, Q p.2 := by
  intro fuel
  induction fuel with
  | zero => intro ls h; simpa [balanceLoop] using h
  | succ n ih =>
    intro ls h
    unfold balanceLoop
    split
    · refine ih _ ?_
      rcases balanceLoopStep_stm_shape ls with hs | ⟨s, ri, hs⟩
      · rw [hs]; exact h
      · rw [hs]; exact alModify_pred Q (fun v hv => hQ v ri hv) h
    · exact h

/-- Append-closed value predicates survive one phase-2 region step. -/
theorem processRegion_stm_pred (Q : batchCopTask → Prop)
    (hQ : ∀ (t : batchCopTask) (ri : RegionInfo),
      Q t → Q { t with regionInfos := t.regionInfos ++ [ri] })
    {tsid : StoreID} {st st' : BalanceState} {ri : RegionInfo}
    (hstep : processRegion tsid st ri = some st')
    (h : ∀ p ∈ st.stm, Q p.2) : ∀ p ∈ st'.stm, Q p.2 := by
  simp only [processRegion] at hstep
  split at hstep
  · cases hstep
    exact alModify_pred Q (fun v hv => hQ v ri hv) h
  · split at hstep
    · cases hstep
    · cases hstep
      exact h

/-- Append-closed value predicates survive a phase-2 region list. -/
theorem processRegions_stm_pred (Q : batchCopTask → Prop)
    (hQ : ∀ (t : batchCopTask) (ri : RegionInfo),
      Q t → Q { t with regionInfos := t.regionInfos ++ [ri] })
    {tsid : StoreID} :
    ∀ (rs : List RegionInfo) (st st' : BalanceState),
      processRegions tsid rs st = some st' →
      (∀ p ∈ st.stm, Q p.2) → ∀ p ∈ st'.stm, Q p.2 := by
  intro rs
  induction rs with
  | nil => intro st st' hstep h; cases hstep; exact h
  | cons ri rest ih =>
    intro st st' hstep h
    unfold processRegions at hstep
    split at hstep
    · cases hstep
    · rename_i st1 h1
      exact ih st1 st' hstep (processRegion_stm_pred Q hQ h1 h)

/-- Append-closed value predicates survive all of phase 2. -/
theorem processTasks_stm_pred (Q : batchCopTask → Prop)
    (hQ : ∀ (t : batchCopTask) (ri : RegionInfo),
      Q t → Q { t with regionInfos := t.regionInfos ++ [ri] }) :
    ∀ (l : List batchCopTask) (st st' : BalanceState),
      processTasks l st = some st' →
      (∀ p ∈ st.stm, Q p.2) → ∀ p ∈ st'.stm, Q p.2 := by
  intro l
  induction l with
  | nil => intro st st' hstep h; cases hstep; exact h
  | cons task rest ih =>
    intro st st' hstep h
    unfold processTasks at hstep
    split at hstep
    · cases hstep
    · rename_i st1 h1
      exact ih st1 st' hstep (processRegions_stm_pred Q hQ _ st st1 h1 h)

/-- Every value of the phase-1 store-task map is a fresh pinned-only task
of one of the drafts. -/
theorem initStoreTaskMap_pred (Q : batchCopTask → Prop) (tasks : List batchCopTask)
    (hQ : ∀ d ∈ tasks, Q { storeAddr := d.storeAddr, cmdType := d.cmdType, ctx := none,
                           regionInfos := [d.regionInfos.headI] }) :
    ∀ p ∈ initStoreTaskMap tasks, Q p.2 := by
  suffices hgen : ∀ (l : List batchCopTask) (m : List (StoreID × batchCopTask)),
      (∀ d ∈ l, Q { storeAddr := d.storeAddr, cmdType := d.cmdType, ctx := none,
                    regionInfos := [d.regionInfos.headI] }) →
      (∀ p ∈ m, Q p.2) →
      ∀ p ∈ l.foldl (fun m task =>
        alSet m task.regionInfos.headI.allStores.headI
          { storeAddr := task.storeAddr, cmdType := task.cmdType, ctx := none,
            regionInfos := [task.regionInfos.headI] }) m, Q p.2 by
    exact hgen tasks [] hQ (by simp)
  intro l
  induction l with
  | nil => intro m _ hm; simpa using hm
  | cons d rest ih =>
    intro m hl hm
    simp only [List.foldl_cons]
    refine ih _ (fun d' hd' => hl d' (List.mem_cons_of_mem _ hd')) ?_
    intro p hp
    rcases alSet_mem hp with h | h
    · rw [h]; exact hl d (List.mem_cons_self _ _)
    · exact hm p h

/-- Claim C3: when every draft task carries at least one region, every
task returned by the balancer has as its first region the pinned first
region of an input draft with the same store — the pinned primary region
stays first and is never reassigned to a different store's task. -/
theorem balance_pin_invariant (tasks : List batchCopTask)
    (h : ∀ d ∈ tasks, d.regionInfos ≠ []) :
    ∀ t ∈ balanceBatchCopTask tasks,
      ∃ d ∈ tasks, d.regionInfos.head? = t.regionInfos.head? ∧ d.storeAddr = t.storeAddr := by
  intro t ht
  unfold balanceBatchCopTask at ht
  cases hprep : balancePrepare tasks with
  | none =>
    rw [hprep] at ht
    exact ⟨t, ht, rfl, rfl⟩
  | some st =>
    rw [hprep] at ht
    by_cases hz : st.totalCandidateStoreNum = 0
    · simp only [hz, if_pos] at ht
      exact ⟨t, ht, rfl, rfl⟩
    · simp only [hz, if_neg, if_false] at ht
      obtain ⟨p, hp, hpt⟩ := List.mem_map.mp ht
      have hQ : ∀ (u : batchCopTask) (ri : RegionInfo),
          (u.regionInfos ≠ [] ∧ ∃ d ∈ tasks,
            d.regionInfos.head? = u.regionInfos.head? ∧ d.storeAddr = u.storeAddr) →
          ((({ u with regionInfos := u.regionInfos ++ [ri] } : batchCopTask)).regionInfos ≠ [] ∧
            ∃ d ∈ tasks, d.regionInfos.head? =
              ({ u with regionInfos := u.regionInfos ++ [ri] } : batchCopTask).regionInfos.head? ∧
              d.storeAddr = ({ u with regionInfos := u.regionInfos ++ [ri] } : batchCopTask).storeAddr) := by
        rintro u ri ⟨hne, d, hd, hh, hs⟩
        refine ⟨by simp, d, hd, ?_, hs⟩
        cases hru : u.regionInfos with
        | nil => exact absurd hru hne
        | cons a l => simp [hru] at hh ⊢; exact hh
      have hinit : ∀ p ∈ initStoreTaskMap tasks,
          (p.2.regionInfos ≠ [] ∧ ∃ d ∈ tasks,
            d.regionInfos.head? = p.2.regionInfos.head? ∧ d.storeAddr = p.2.storeAddr) := by
        refine initStoreTaskMap_pred (fun u => u.regionInfos ≠ [] ∧ ∃ d ∈ tasks,
          d.regionInfos.head? = u.regionInfos.head? ∧ d.storeAddr = u.storeAddr) tasks ?_
        intro d hd
        refine ⟨by simp, d, hd, ?_, rfl⟩
        cases hrd : d.regionInfos with
        | nil => exact absurd hrd (h d hd)
        | cons a l => simp [hrd]
      have hst : ∀ p ∈ st.stm,
          (p.2.regionInfos ≠ [] ∧ ∃ d ∈ tasks,
            d.regionInfos.head? = p.2.regionInfos.head? ∧ d.storeAddr = p.2.storeAddr) := by
        exact processTasks_stm_pred (fun u => u.regionInfos ≠ [] ∧ ∃ d ∈ tasks,
          d.regionInfos.head? = u.regionInfos.head? ∧ d.storeAddr = u.storeAddr) hQ
          tasks ⟨initStoreTaskMap tasks, [], 0, 0⟩ st hprep hinit
      have hfin := balanceLoop_stm_pred (fun u => u.regionInfos ≠ [] ∧ ∃ d ∈ tasks,
          d.regionInfos.head? = u.regionInfos.head? ∧ d.storeAddr = u.storeAddr) hQ
          (st.totalCandidateCopTaskNum.toNat + 1) _ hst p hp
      rw [← hpt]
      exact hfin.2

/-- Witness for C3 at a concrete two-store, four-region input, applied to
the returned task of store 1 (which received region 10 in rebalancing). -/
theorem balance_pin_invariant_witness :
    ∃ d ∈ pinInput,
      d.regionInfos.head? = some ⟨⟨1, 0, 0⟩, 0, 0, [1]⟩ ∧ d.storeAddr = 101 :=
  balance_pin_invariant pinInput (by decide)
    ⟨101, CmdBatchCop, none, [⟨⟨1, 0, 0⟩, 0, 0, [1]⟩, ⟨⟨10, 0, 0⟩, 0, 0, [1, 2]⟩]⟩
    (by decide)

/-! ## C2: regions with a single valid store

The code (line 134) appends such a region to
`storeTaskMap[taskStoreID]` — the task of the region's *own draft's*
primary store — not to the task of the single valid store; the two only
coincide when the single valid store happens to be the draft's primary.
The lemmas below prove the corrected statement; the counterexample
refutes the claim as written. -/

/-- `alGet` after `alSet`: the new binding at its key, unchanged
elsewhere. -/
theorem alGet_alSet {K α : Type} [DecidableEq K] (m : List (K × α)) (k k' : K) (v : α) :
    alGet (alSet m k v) k' = if k = k' then some v else alGet m k' := by
  induction m with
  | nil => by_cases h2 : k = k' <;> simp [alSet, alGet, h2]
  | cons q t ih =>
    obtain ⟨a, b⟩ := q
    by_cases h : a = k
    · subst h
      by_cases h2 : a = k'
      · subst h2; simp [alSet, alGet]
      · simp [alSet, alGet, h2]
    · by_cases h2 : a = k'
      · subst h2
        have hk : ¬ k = a := fun he => h he.symm
        simp [alSet, alGet, h, hk]
      · simp [alSet, alGet, h, h2, ih]

/-- `alGet` after `alModify`: the function applied at its key, unchanged
elsewhere. -/
theorem alGet_alModify {K α : Type} [DecidableEq K] (m : List (K × α)) (k k' : K) (f : α → α) :
    alGet (alModify m k f) k' = if k = k' then Option.map f (alGet m k') else alGet m k' := by
  induction m with
  | nil => by_cases h2 : k = k' <;> simp [alModify, alGet, h2]
  | cons q t ih =>
    obtain ⟨a, b⟩ := q
    by_cases h : a = k
    · subst h
      by_cases h2 : a = k'
      · subst h2; simp [alModify, alGet]
      · simp [alModify, alGet, h2]
    · by_cases h2 : a = k'
      · subst h2
        have hk : ¬ k = a := fun he => h he.symm
        simp [alModify, alGet, h, hk]
      · simp [alModify, alGet, h, h2, ih]

/-- The valid-store count only depends on which stores are present in the
map. -/
theorem validStoreNum_congr {m m' : List (StoreID × batchCopTask)}
    (h : ∀ s, (alGet m s).isSome = (alGet m' s).isSome) (ri : RegionInfo) :
    validStoreNum m ri = validStoreNum m' ri := by
  unfold validStoreNum
  rw [List.filter_congr (fun s _ => h s)]

/-- A phase-2 region step never changes which stores are present. -/
theorem processRegion_keys {tsid : StoreID} {st st' : BalanceState} {ri : RegionInfo}
    (h : processRegion tsid st ri = some st') :
    ∀ k, (alGet st'.stm k).isSome = (alGet st.stm k).isSome := by
  intro k
  simp only [processRegion] at h
  split at h
  · cases h
    rw [alGet_alModify]
    by_cases he : tsid = k <;> simp [he]
  · split at h
    · cases h
    · cases h; rfl

/-- A phase-2 region list never changes which stores are present. -/
theorem processRegions_keys {tsid : StoreID} :
    ∀ (rs : List RegionInfo) (st st' : BalanceState),
      processRegions tsid rs st = some st' →
      ∀ k, (alGet st'.stm k).isSome = (alGet st.stm k).isSome := by
  intro rs
  induction rs with
  | nil => intro st st' h k; cases h; rfl
  | cons ri rest ih =>
    intro st st' h k
    unfold processRegions at h
    split at h
    · cases h
    · rename_i st1 h1
      rw [ih st1 st' h k, processRegion_keys h1 k]

/-- Region membership in a store's task persists through a phase-2
region step (appends only). -/
theorem processRegion_memAt {tsid : StoreID} {st st' : BalanceState} {ri : RegionInfo}
    (h : processRegion tsid st ri = some st') {k : StoreID} {r : RegionInfo}
    (hm : ∃ t, alGet st.stm k = some t ∧ r ∈ t.regionInfos) :
    ∃ t, alGet st'.stm k = some t ∧ r ∈ t.regionInfos := by
  obtain ⟨t, ht, hr⟩ := hm
  simp only [processRegion] at h
  split at h
  · cases h
    by_cases he : tsid = k
    · refine ⟨{ t with regionInfos := t.regionInfos ++ [ri] }, ?_, ?_⟩
      · rw [alGet_alModify]; simp [he, ht]
      · simp [hr]
    · refine ⟨t, ?_, hr⟩
      rw [alGet_alModify]; simp [he, ht]
  · split at h
    · cases h
    · cases h; exact ⟨t, ht, hr⟩

/-- Region membership persists through a phase-2 region list. -/
theorem processRegions_memAt {tsid : StoreID} :
    ∀ (rs : List RegionInfo) (st st' : BalanceState),
      processRegions tsid rs st = some st' → ∀ {k : StoreID} {r : RegionInfo},
      (∃ t, alGet st.stm k = some t ∧ r ∈ t.regionInfos) →
      ∃ t, alGet st'.stm k = some t ∧ r ∈ t.regionInfos := by
  intro rs
  induction rs with
  | nil => intro st st' h k r hm; cases h; exact hm
  | cons ri rest ih =>
    intro st st' h k r hm
    unfold processRegions at h
    split at h
    · cases h
    · rename_i st1 h1
      exact ih st1 st' h (processRegion_memAt h1 hm)

/-- Region membership persists through all of phase 2. -/
theorem processTasks_memAt :
    ∀ (l : List batchCopTask) (st st' : BalanceState),
      processTasks l st = some st' → ∀ {k : StoreID} {r : RegionInfo},
      (∃ t, alGet st.stm k = some t ∧ r ∈ t.regionInfos) →
      ∃ t, alGet st'.stm k = some t ∧ r ∈ t.regionInfos := by
  intro l
  induction l with
  | nil => intro st st' h k r hm; cases h; exact hm
  | cons task rest ih =>
    intro st st' h k r hm
    unfold processTasks at h
    split at h
    · cases h
    · rename_i st1 h1
      exact ih st1 st' h (processRegions_memAt _ st st1 h1 hm)

/-- A region whose valid-store count is 1 is appended, by the step that
processes it, to the task keyed by its draft's primary store. -/
theorem processRegion_establish {tsid : StoreID} {st st' : BalanceState} {ri : RegionInfo}
    (h : processRegion tsid st ri = some st')
    (hv : validStoreNum st.stm ri = 1) (hk : (alGet st.stm tsid).isSome = true) :
    ∃ t, alGet st'.stm tsid = some t ∧ ri ∈ t.regionInfos := by
  obtain ⟨t, ht⟩ := Option.isSome_iff_exists.mp hk
  simp only [processRegion, hv, if_pos] at h
  cases h
  refine ⟨{ t with regionInfos := t.regionInfos ++ [ri] }, ?_, ?_⟩
  · rw [alGet_alModify]; simp [ht]
  · simp

/-- Through a phase-2 region list containing the region. -/
theorem processRegions_reach {tsid : StoreID} {ri : RegionInfo} :
    ∀ (rs : List RegionInfo) (st st' : BalanceState),
      processRegions tsid rs st = some st' →
      ri ∈ rs → validStoreNum st.stm ri = 1 → (alGet st.stm tsid).isSome = true →
      ∃ t, alGet st'.stm tsid = some t ∧ ri ∈ t.regionInfos := by
  intro rs
  induction rs with
  | nil => intro st st' h hmem; cases hmem
  | cons r0 rest ih =>
    intro st st' h hmem hv hk
    unfold processRegions at h
    split at h
    · cases h
    · rename_i st1 h1
      rcases List.mem_cons.mp hmem with he | he
      · subst he
        exact processRegions_memAt rest st1 st' h (processRegion_establish h1 hv hk)
      · refine ih st1 st' h he ?_ ?_
        · rw [validStoreNum_congr (processRegion_keys h1) ri]; exact hv
        · rw [processRegion_keys h1 tsid]; exact hk

/-- Through all of phase 2, for a region of one of the drafts. -/
theorem processTasks_reach {d : batchCopTask} {ri : RegionInfo} :
    ∀ (l : List batchCopTask) (st st' : BalanceState),
      processTasks l st = some st' → d ∈ l → ri ∈ d.regionInfos.tail →
      validStoreNum st.stm ri = 1 →
      (alGet st.stm d.regionInfos.headI.allStores.headI).isSome = true →
      ∃ t, alGet st'.stm d.regionInfos.headI.allStores.headI = some t ∧ ri ∈ t.regionInfos := by
  intro l
  induction l with
  | nil => intro st st' h hmem; cases hmem
  | cons t0 rest ih =>
    intro st st' h hmem hri hv hk
    unfold processTasks at h
    split at h
    · cases h
    · rename_i st1 h1
      rcases List.mem_cons.mp hmem with he | he
      · subst he
        exact processTasks_memAt rest st1 st' h
          (processRegions_reach d.regionInfos.tail st st1 h1 hri hv hk)
      · refine ih st1 st' h he hri ?_ ?_
        · rw [validStoreNum_congr (processRegions_keys _ st st1 h1) ri]; exact hv
        · rw [processRegions_keys _ st st1 h1]; exact hk

/-- Phase 1 creates an entry for every draft's primary store. -/
theorem initStoreTaskMap_key_present (tasks : List batchCopTask) (d : batchCopTask)
    (hd : d ∈ tasks) :
    (alGet (initStoreTaskMap tasks) d.regionInfos.headI.allStores.headI).isSome = true := by
  suffices hgen : ∀ (l : List batchCopTask) (m : List (StoreID × batchCopTask)),
      ((alGet m d.regionInfos.headI.allStores.headI).isSome = true ∨ d ∈ l) →
      (alGet (l.foldl (fun m task =>
        alSet m task.regionInfos.headI.allStores.headI
          { storeAddr := task.storeAddr, cmdType := task.cmdType, ctx := none,
            regionInfos := [task.regionInfos.headI] }) m)
        d.regionInfos.headI.allStores.headI).isSome = true by
    exact hgen tasks [] (Or.inr hd)
  intro l
  induction l with
  | nil =>
    intro m hm
    rcases hm with hm | hm
    · simpa using hm
    · cases hm
  | cons t0 rest ih =>
    intro m hm
    simp only [List.foldl_cons]
    rcases hm with hm | hm
    · refine ih _ (Or.inl ?_)
      rw [alGet_alSet]
      split
      · rfl
      · exact hm
    · rcases List.mem_cons.mp hm with he | he
      · subst he
        refine ih _ (Or.inl ?_)
        rw [alGet_alSet]
        simp
      · exact ih _ (Or.inr he)

/-- Claim C2 (amended): during balancing, every non-pinned region whose
valid-store count (with the at-most-one-store convention) is 1 is
appended immediately to the task of its own draft's primary store — the
store of the draft's pinned first region.  This coincides with "the task
of the single valid store" exactly when that store is the draft's
primary, which the code does not check. -/
theorem single_valid_store_appended_to_primary (tasks : List batchCopTask)
    (d : batchCopTask) (ri : RegionInfo) (st : BalanceState)
    (hd : d ∈ tasks) (hri : ri ∈ d.regionInfos.tail)
    (hv : validStoreNum (initStoreTaskMap tasks) ri = 1)
    (hprep : balancePrepare tasks = some st) :
    ∃ t, alGet st.stm d.regionInfos.headI.allStores.headI = some t ∧ ri ∈ t.regionInfos :=
  processTasks_reach tasks ⟨initStoreTaskMap tasks, [], 0, 0⟩ st hprep hd hri hv
    (initStoreTaskMap_key_present tasks d hd)

/-- Counterexample to C2 as stated: in `svInput`, region 10's set of
valid stores is exactly `[2]`, yet after balancing's candidate phase the
region sits in store 1's task (its draft's primary) and not in store 2's
task, and the balancer returns the drafts unchanged — the region is never
appended to the task of its single valid store. -/
theorem single_valid_store_counterexample :
    validStores (initStoreTaskMap svInput) svRegion = [2] ∧
    validStoreNum (initStoreTaskMap svInput) svRegion = 1 ∧
    (((balancePrepare svInput).getD default).stm.map
        (fun p => (p.1, p.2.regionInfos.contains svRegion))) = [(1, true), (2, false)] ∧
    balanceBatchCopTask svInput = svInput := by decide

/-- Witness for the amended C2 at `svInput`. -/
theorem single_valid_store_appended_witness :
    ∃ t, alGet ((balancePrepare svInput).getD default).stm
        ((⟨101, CmdBatchCop, none, [⟨⟨1, 0, 0⟩, 0, 0, [1]⟩, svRegion]⟩ :
          batchCopTask)).regionInfos.headI.allStores.headI = some t ∧
      svRegion ∈ t.regionInfos :=
  single_valid_store_appended_to_primary svInput
    ⟨101, CmdBatchCop, none, [⟨⟨1, 0, 0⟩, 0, 0, [1]⟩, svRegion]⟩ svRegion
    ((balancePrepare svInput).getD default)
    (by decide) (by decide) (by decide) (by decide)

/-! ## C4: the duplicate-region bailout

The candidate maps, over a successful phase-2 run, contain exactly the
`(store, region_key)` pairs inserted so far; the run aborts (and the
balancer returns the drafts unchanged) exactly when an insertion meets an
existing pair, i.e. when the insertion-pair sequence has a duplicate. -/

/-- Inserting a key into an existing store's candidate map adds exactly
that pair to the membership relation. -/
theorem candMem_insert_existing {cand : List (StoreID × List (RegionVerID × RegionInfo))}
    {s : StoreID} {inner : List (RegionVerID × RegionInfo)} {key : RegionVerID} {ri : RegionInfo}
    (h : alGet cand s = some inner) (p : StoreID × RegionVerID) :
    candMem (alSet cand s (alSet inner key ri)) p =
      if p = (s, key) then true else candMem cand p := by
  obtain ⟨ps, pk⟩ := p
  by_cases h1 : s = ps
  · subst h1
    by_cases h2 : key = pk
    · subst h2
      simp [candMem, alGet_alSet, h]
    · have hne : ¬ ((s, pk) = (s, key)) := fun hh => h2 ((Prod.mk.injEq _ _ _ _).mp hh).2.symm
      simp [candMem, alGet_alSet, h, h2, hne]
  · have hne : ¬ ((ps, pk) = (s, key)) := fun hh => h1 (((Prod.mk.injEq _ _ _ _).mp hh).1).symm
    simp [candMem, alGet_alSet, h1, hne]

/-- Creating a fresh one-entry candidate map adds exactly that pair. -/
theorem candMem_insert_fresh {cand : List (StoreID × List (RegionVerID × RegionInfo))}
    {s : StoreID} {key : RegionVerID} {ri : RegionInfo}
    (h : alGet cand s = none) (p : StoreID × RegionVerID) :
    candMem (alSet cand s [(key, ri)]) p =
      if p = (s, key) then true else candMem cand p := by
  obtain ⟨ps, pk⟩ := p
  by_cases h1 : s = ps
  · subst h1
    by_cases h2 : key = pk
    · subst h2
      simp [candMem, alGet_alSet, alGet, h]
    · have hne : ¬ ((s, pk) = (s, key)) := fun hh => h2 ((Prod.mk.injEq _ _ _ _).mp hh).2.symm
      simp [candMem, alGet_alSet, alGet, h, h2, hne]
  · have hne : ¬ ((ps, pk) = (s, key)) := fun hh => h1 (((Prod.mk.injEq _ _ _ _).mp hh).1).symm
    simp [candMem, alGet_alSet, h1, hne]

/-- A successful insertion of one region into the candidate maps of all
its stores extends the pair inventory duplicate-freely. -/
theorem insertCandidates_nodup {key : RegionVerID} {ri : RegionInfo} :
    ∀ (ss : List StoreID) (cand cand' : List (StoreID × List (RegionVerID × RegionInfo)))
      (P : List (StoreID × RegionVerID)),
      (∀ p, candMem cand p = true ↔ p ∈ P) → P.Nodup →
      insertCandidates key ri ss cand = some cand' →
      (P ++ ss.map (fun s => (s, key))).Nodup ∧
      (∀ p, candMem cand' p = true ↔ p ∈ P ++ ss.map (fun s => (s, key))) := by
  intro ss
  induction ss with
  | nil =>
    intro cand cand' P hc hnd h
    cases h
    simp only [List.map_nil, List.append_nil]
    exact ⟨hnd, hc⟩
  | cons s rest ih =>
    intro cand cand' P hc hnd h
    unfold insertCandidates at h
    have hstep : ∀ (cand1 : List (StoreID × List (RegionVerID × RegionInfo))),
        (∀ p, candMem cand1 p = true ↔ p ∈ P ++ [(s, key)]) →
        (P ++ [(s, key)]).Nodup →
        insertCandidates key ri rest cand1 = some cand' →
        (P ++ (s, key) :: rest.map (fun s => (s, key))).Nodup ∧
        (∀ p, candMem cand' p = true ↔ p ∈ P ++ (s, key) :: rest.map (fun s => (s, key))) := by
      intro cand1 hc1 hnd1 h1
      have := ih cand1 cand' (P ++ [(s, key)]) hc1 hnd1 h1
      rw [List.append_cons]
      simpa using this
    split at h
    · rename_i inner hinner
      split at h
      · cases h
      · rename_i hdup
        have hnotmem : (s, key) ∉ P := by
          rw [← hc (s, key)]
          simp only [candMem, hinner]
          simpa using hdup
        refine hstep _ ?_ ?_ h
        · intro p
          rw [candMem_insert_existing hinner p]
          by_cases hp : p = (s, key) <;> simp [hp, hc p]
        · simp [List.nodup_append, hnd, hnotmem]
    · rename_i hinner
      have hnotmem : (s, key) ∉ P := by
        rw [← hc (s, key)]
        simp [candMem, hinner]
      refine hstep _ ?_ ?_ h
      · intro p
        rw [candMem_insert_fresh hinner p]
        by_cases hp : p = (s, key) <;> simp [hp, hc p]
      · simp [List.nodup_append, hnd, hnotmem]

/-- Unfolding `pairsOfRegions` one region at a time. -/
theorem pairsOfRegions_cons (stm0 : List (StoreID × batchCopTask)) (ri : RegionInfo)
    (rs : List RegionInfo) :
    pairsOfRegions stm0 (ri :: rs) =
      (if validStoreNum stm0 ri != 1 then regionPairs ri else []) ++ pairsOfRegions stm0 rs := by
  unfold pairsOfRegions
  rw [List.filter_cons]
  by_cases h : validStoreNum stm0 ri != 1 <;> simp [h]

/-- One successful phase-2 region step extends the pair inventory with
the region's pairs (when it is a candidate), duplicate-freely. -/
theorem processRegion_pairs {stm0 : List (StoreID × batchCopTask)} {tsid : StoreID}
    {st st' : BalanceState} {ri : RegionInfo} {P : List (StoreID × RegionVerID)}
    (hstep : processRegion tsid st ri = some st')
    (hv : ∀ r, validStoreNum st.stm r = validStoreNum stm0 r)
    (hc : ∀ p, candMem st.cand p = true ↔ p ∈ P) (hnd : P.Nodup) :
    (∀ r, validStoreNum st'.stm r = validStoreNum stm0 r) ∧
    (P ++ (if validStoreNum stm0 ri != 1 then regionPairs ri else [])).Nodup ∧
    (∀ p, candMem st'.cand p = true ↔
      p ∈ P ++ (if validStoreNum stm0 ri != 1 then regionPairs ri else [])) := by
  refine ⟨?_, ?_⟩
  · intro r
    rw [validStoreNum_congr (processRegion_keys hstep) r]
    exact hv r
  · simp only [processRegion] at hstep
    split at hstep
    · rename_i h1
      have : validStoreNum stm0 ri = 1 := (hv ri) ▸ h1
      cases hstep
      simp [this, hnd, hc]
    · rename_i h1
      have hne : (validStoreNum stm0 ri != 1) = true := by
        rw [← hv ri]; simpa using h1
      split at hstep
      · cases hstep
      · rename_i cand1 heq
        cases hstep
        rw [hne, if_pos rfl]
        have := insertCandidates_nodup ri.allStores st.cand cand1 P hc hnd heq
        exact ⟨this.1, this.2⟩

/-- A successful phase-2 region list extends the pair inventory with its
`pairsOfRegions`, duplicate-freely. -/
theorem processRegions_pairs {stm0 : List (StoreID × batchCopTask)} {tsid : StoreID} :
    ∀ (rs : List RegionInfo) (st st' : BalanceState) (P : List (StoreID × RegionVerID)),
      processRegions tsid rs st = some st' →
      (∀ r, validStoreNum st.stm r = validStoreNum stm0 r) →
      (∀ p, candMem st.cand p = true ↔ p ∈ P) → P.Nodup →
      (∀ r, validStoreNum st'.stm r = validStoreNum stm0 r) ∧
      (P ++ pairsOfRegions stm0 rs).Nodup ∧
      (∀ p, candMem st'.cand p = true ↔ p ∈ P ++ pairsOfRegions stm0 rs) := by
  intro rs
  induction rs with
  | nil =>
    intro st st' P h hv hc hnd
    cases h
    simp only [pairsOfRegions, List.filter_nil, List.flatMap_nil, List.append_nil]
    exact ⟨hv, hnd, hc⟩
  | cons ri rest ih =>
    intro st st' P h hv hc hnd
    unfold processRegions at h
    split at h
    · cases h
    · rename_i st1 h1
      have hstep := processRegion_pairs h1 hv hc hnd
      have := ih st1 st' _ h hstep.1 hstep.2.2 hstep.2.1
      rw [pairsOfRegions_cons, ← List.append_assoc]
      exact this

/-- A successful phase 2 run means the whole insertion-pair sequence was
duplicate-free. -/
theorem processTasks_pairs {stm0 : List (StoreID × batchCopTask)} :
    ∀ (l : List batchCopTask) (st st' : BalanceState) (P : List (StoreID × RegionVerID)),
      processTasks l st = some st' →
      (∀ r, validStoreNum st.stm r = validStoreNum stm0 r) →
      (∀ p, candMem st.cand p = true ↔ p ∈ P) → P.Nodup →
      (P ++ insertionPairs stm0 l).Nodup := by
  intro l
  induction l with
  | nil =>
    intro st st' P h hv hc hnd
    simpa [insertionPairs] using hnd
  | cons t0 rest ih =>
    intro st st' P h hv hc hnd
    unfold processTasks at h
    split at h
    · cases h
    · rename_i st1 h1
      have hstep := processRegions_pairs t0.regionInfos.tail st st1 P h1 hv hc hnd
      have := ih st1 st' _ h hstep.1 hstep.2.2 hstep.2.1
      rw [show insertionPairs stm0 (t0 :: rest) =
        pairsOfRegions stm0 t0.regionInfos.tail ++ insertionPairs stm0 rest by
          simp [insertionPairs]]
      rw [← List.append_assoc]
      exact this

/-- Contrapositive core of C4: phases 1-2 only succeed on duplicate-free
insertion sequences. -/
theorem balancePrepare_some_nodup {tasks : List batchCopTask} {st : BalanceState}
    (h : balancePrepare tasks = some st) :
    (insertionPairs (initStoreTaskMap tasks) tasks).Nodup := by
  have := @processTasks_pairs (initStoreTaskMap tasks) tasks
    ⟨initStoreTaskMap tasks, [], 0, 0⟩ st [] h (fun r => rfl)
    (fun p => by simp [candMem, alGet]) List.nodup_nil
  simpa using this

/-- Claim C4: whenever the same `(store, region_key)` pair would be
inserted twice into some store's candidate map — the insertion-pair
sequence has a duplicate — the balancer returns the original draft list
unchanged. -/
theorem duplicate_region_bailout (tasks : List batchCopTask)
    (h : ¬ (insertionPairs (initStoreTaskMap tasks) tasks).Nodup) :
    balanceBatchCopTask tasks = tasks := by
  cases hprep : balancePrepare tasks with
  | none => simp [balanceBatchCopTask, hprep]
  | some st => exact absurd (balancePrepare_some_nodup hprep) h

/-- Witness for C4: a duplicated region across two drafts leaves the
input unchanged. -/
theorem duplicate_region_bailout_witness :
    balanceBatchCopTask dupInput = dupInput :=
  duplicate_region_bailout dupInput (by decide)


/-! ## C7: region-miss handling in the planner -/

/-- When no resolution errors occur in a pass, the resolution loop runs to
the end of the task list: it resolves every region (in order), flags
`needRetry` exactly when some region resolved to a nil context, and
returns some store-task map. -/
theorem resolvePass_ok {o : PlanOracle} {k : Nat} :
    ∀ (l : List copTask) (stm : List (Nat × batchCopTask)) (nr : Bool) (res : List RegionVerID),
      (∀ t ∈ l, ∃ r, o.rpcCtx k t.region = .ok r) →
      ∃ stm', resolvePass o k l stm nr res =
        .ok (stm', (nr || l.any (fun t =>
          match o.rpcCtx k t.region with | Except.ok none => true | _ => false)),
             res ++ l.map (·.region)) := by
  intro l
  induction l with
  | nil => intro stm nr res _; exact ⟨stm, by simp [resolvePass]⟩
  | cons t0 rest ih =>
    intro stm nr res h
    obtain ⟨r0, hr0⟩ := h t0 (List.mem_cons_self _ _)
    cases r0 with
    | none =>
      obtain ⟨stm', hst⟩ := ih stm true (res ++ [t0.region])
        (fun t ht => h t (List.mem_cons_of_mem _ ht))
      refine ⟨stm', ?_⟩
      unfold resolvePass
      rw [hr0, hst]
      simp [hr0]
    | some rpc =>
      have hrec := ih
        (if (alGet stm rpc.addr).isSome then
          alModify stm rpc.addr (fun bt => { bt with regionInfos :=
            bt.regionInfos ++ [⟨t0.region, rpc.meta, t0.ranges, o.allStores k t0.region⟩] })
        else
          alSet stm rpc.addr ⟨rpc.addr, CmdBatchCop, some rpc,
            [⟨t0.region, rpc.meta, t0.ranges, o.allStores k t0.region⟩]⟩)
        nr (res ++ [t0.region]) (fun t ht => h t (List.mem_cons_of_mem _ ht))
      obtain ⟨stm', hst⟩ := hrec
      refine ⟨stm', ?_⟩
      unfold resolvePass
      rw [hr0]
      show resolvePass o k rest _ nr (res ++ [t0.region]) = _
      rw [hst]
      simp [hr0]

/-- A topology-cache error anywhere in the pass aborts the resolution
loop with an error. -/
theorem resolvePass_err {o : PlanOracle} {k : Nat} :
    ∀ (l : List copTask) (stm : List (Nat × batchCopTask)) (nr : Bool) (res : List RegionVerID),
      (∃ t ∈ l, ∃ e, o.rpcCtx k t.region = .error e) →
      ∃ e' res', resolvePass o k l stm nr res = .error (e', res') := by
  intro l
  induction l with
  | nil => rintro stm nr res ⟨t, ht, _⟩; cases ht
  | cons t0 rest ih =>
    rintro stm nr res ⟨t, ht, e, he⟩
    cases hr0 : o.rpcCtx k t0.region with
    | error e0 =>
      refine ⟨e0, res ++ [t0.region], ?_⟩
      unfold resolvePass
      rw [hr0]
    | ok r0 =>
      have hrest : ∃ t ∈ rest, ∃ e, o.rpcCtx k t.region = .error e := by
        rcases List.mem_cons.mp ht with he0 | he0
        · subst he0; rw [he] at hr0; cases hr0
        · exact ⟨t, he0, e, he⟩
      cases r0 with
      | none =>
        obtain ⟨e', res', hst⟩ := ih stm true (res ++ [t0.region]) hrest
        refine ⟨e', res', ?_⟩
        unfold resolvePass
        rw [hr0]
        exact hst
      | some rpc =>
        obtain ⟨e', res', hst⟩ := ih
          (if (alGet stm rpc.addr).isSome then
            alModify stm rpc.addr (fun bt => { bt with regionInfos :=
              bt.regionInfos ++ [⟨t0.region, rpc.meta, t0.ranges, o.allStores k t0.region⟩] })
          else
            alSet stm rpc.addr ⟨rpc.addr, CmdBatchCop, some rpc,
              [⟨t0.region, rpc.meta, t0.ranges, o.allStores k t0.region⟩]⟩)
          nr (res ++ [t0.region]) hrest
        refine ⟨e', res', ?_⟩
        unfold resolvePass
        rw [hr0]
        exact hst

/-- Claim C7: in a pass whose split succeeds, (i) if at least one region
resolves to a nil `RPCContext` and none errors, the pass is not aborted —
every region of the pass is still resolved — exactly one `BoRegionMiss`
backoff cycle is applied, and, when that backoff succeeds, the planner
restarts with the original ranges (the next pass runs on the same
`ranges` argument at pass index `k+1`), while an exhausted backoff is
returned as a fatal error; and (ii) a topology-cache error in the pass is
returned as a fatal error to the caller. -/
theorem buildBatchCopTasks_region_miss (o : PlanOracle) (ranges k : Nat) (cts : List copTask)
    (hsplit : o.split k ranges = .ok cts) :
    ((∀ t ∈ cts, ∃ r, o.rpcCtx k t.region = .ok r) →
      (∃ t ∈ cts, o.rpcCtx k t.region = .ok none) →
      (buildPass o ranges k).1.resolvedRegions = cts.map (·.region) ∧
      (buildPass o ranges k).1.backoffs = [.BoRegionMiss] ∧
      (o.regionMissBackoff k = none →
        (buildPass o ranges k).2 = .retryNext ∧
        ∀ fuel, buildBatchCopTasksAux o ranges k (fuel + 1) =
          (match buildBatchCopTasksAux o ranges (k + 1) fuel with
           | none => none
           | some (trs, r) => some ((buildPass o ranges k).1 :: trs, r))) ∧
      (∀ e, o.regionMissBackoff k = some e →
        (buildPass o ranges k).2 = .fatal e ∧
        ∀ fuel, buildBatchCopTasksAux o ranges k (fuel + 1) =
          some ([(buildPass o ranges k).1], .error e))) ∧
    ((∃ t ∈ cts, ∃ e, o.rpcCtx k t.region = .error e) →
      ∃ e', (buildPass o ranges k).2 = .fatal e' ∧
        ∀ fuel, buildBatchCopTasksAux o ranges k (fuel + 1) =
          some ([(buildPass o ranges k).1], .error e')) := by
  constructor
  · intro hok hmiss
    obtain ⟨stm', hres⟩ := resolvePass_ok cts [] false [] hok
    have hany : (cts.any (fun t =>
        match o.rpcCtx k t.region with | Except.ok none => true | _ => false)) = true := by
      obtain ⟨t, ht, hnil⟩ := hmiss
      exact List.any_eq_true.mpr ⟨t, ht, by simp [hnil]⟩
    have h1 : (buildPass o ranges k).1 = ⟨cts.map (·.region), [.BoRegionMiss]⟩ := by
      cases hb : o.regionMissBackoff k <;>
        simp [buildPass, hsplit, hres, hany, hb]
    refine ⟨by rw [h1], by rw [h1], ?_, ?_⟩
    · intro hbo
      have hbp : buildPass o ranges k = (⟨cts.map (·.region), [.BoRegionMiss]⟩, .retryNext) := by
        simp [buildPass, hsplit, hres, hany, hbo]
      refine ⟨by rw [hbp], ?_⟩
      intro fuel
      conv_lhs => rw [buildBatchCopTasksAux]
      rw [hbp]
    · intro e hbo
      have hbp : buildPass o ranges k = (⟨cts.map (·.region), [.BoRegionMiss]⟩, .fatal e) := by
        simp [buildPass, hsplit, hres, hany, hbo]
      refine ⟨by rw [hbp], ?_⟩
      intro fuel
      conv_lhs => rw [buildBatchCopTasksAux]
      rw [hbp]
  · intro herr
    obtain ⟨e', res', hres⟩ := resolvePass_err cts [] false [] herr
    have hbp : buildPass o ranges k = (⟨res', []⟩, .fatal e') := by
      simp [buildPass, hsplit, hres]
    refine ⟨e', by rw [hbp], ?_⟩
    intro fuel
    conv_lhs => rw [buildBatchCopTasksAux]
    rw [hbp]

/-- Witness for C7: one region, evicted on pass 0, with a succeeding
region-miss backoff. -/
theorem buildBatchCopTasks_region_miss_witness :
    (buildPass planOracleW 0 0).1.resolvedRegions = ([⟨⟨1, 0, 0⟩, 0⟩] : List copTask).map (·.region) ∧
    (buildPass planOracleW 0 0).1.backoffs = [.BoRegionMiss] ∧
    (buildPass planOracleW 0 0).2 = .retryNext := by
  have h := (buildBatchCopTasks_region_miss planOracleW 0 0 [⟨⟨1, 0, 0⟩, 0⟩] rfl).1
    (fun t _ => ⟨none, rfl⟩) ⟨⟨⟨1, 0, 0⟩, 0⟩, by decide, rfl⟩
  exact ⟨h.1, h.2.1, (h.2.2.1 rfl).1⟩
